import Mathlib

/-!
Shallow embedding of the cvshapeinverter repository (chadmv/cvshapeinverter).

The repository has two components:

- the authoring operation invert in scripts/cvshapeinverter.py, which probes
  the upstream deformation chain with unit offsets of the intermediate
  (original) mesh, builds one 4x4 matrix per vertex, stores the inverse of
  each matrix on the inversionMatrix array attribute of a cvShapeInverter
  deformer node, and stores the base mesh points on the deformedPoints
  attribute;

- the runtime deformer deform method, in two revisions:
  plug-ins/cvshapeinverter_plugin.py (guards: corrective mesh connected,
  matrix element count nonzero) and plug-ins/cvShapeInverter.py (guard:
  activate flag; matrices read by vertex count with an array data builder).

Modelling conventions, stated once here:

- Machine doubles are modelled as exact rationals.
- MPoint and MVector are both modelled as Pt, a triple of rationals; the
  code never uses a w component other than the defaults.
- MMatrix is modelled as Mat4 with 16 rational entries; the MMatrix default
  constructor yields the identity matrix. MMatrix.inverse is modelled as
  minverse, the adjugate divided by the determinant; in the rationals a
  division by a zero determinant yields zero entries. minverse agrees with
  the true inverse exactly on matrices with nonzero determinant
  (mul4_minverse below certifies this).
- The host scene is modelled by a function chain from the intermediate
  (original) mesh points to the base mesh points: reading the base mesh
  after writing points P to the intermediate mesh returns chain P. The
  corrective mesh is an independent sculpted mesh, unaffected by writes to
  the intermediate mesh.
- An out-of-range index into a host point array or a Python list raises an
  exception that aborts the evaluation; this is modelled by Option, with
  none for an aborted evaluation. Points written before the failing index
  are not modelled.
- The geometry iterator of the deformer visits vertices 0, 1, ... in order,
  and itGeo.index on the j-th visited vertex is j.
-/

/-- A 3-component point or vector with rational coordinates, modelling both
MPoint and MVector (the w component is never used by this code). -/
structure Pt where
  x : ℚ
  y : ℚ
  z : ℚ
deriving DecidableEq, Repr

/-- The zero point, also the default value used for out-of-range getD reads
inside theorem statements (statements always carry the bounds that make the
default irrelevant). -/
def ptZero : Pt := ⟨0, 0, 0⟩

instance : Add Pt := ⟨fun a b => ⟨a.x + b.x, a.y + b.y, a.z + b.z⟩⟩

instance : Sub Pt := ⟨fun a b => ⟨a.x - b.x, a.y - b.y, a.z - b.z⟩⟩

/-- A 4x4 matrix with rational entries, modelling MMatrix. Field mRC is the
entry at row R, column C. -/
structure Mat4 where
  m00 : ℚ
  m01 : ℚ
  m02 : ℚ
  m03 : ℚ
  m10 : ℚ
  m11 : ℚ
  m12 : ℚ
  m13 : ℚ
  m20 : ℚ
  m21 : ℚ
  m22 : ℚ
  m23 : ℚ
  m30 : ℚ
  m31 : ℚ
  m32 : ℚ
  m33 : ℚ
deriving DecidableEq, Repr

/-- The identity matrix, the value of the MMatrix default constructor. -/
def idMat4 : Mat4 := ⟨1,0,0,0, 0,1,0,0, 0,0,1,0, 0,0,0,1⟩

/-- The all-zero matrix. -/
def zeroMat4 : Mat4 := ⟨0,0,0,0, 0,0,0,0, 0,0,0,0, 0,0,0,0⟩

/-- Matrix product of two 4x4 matrices. -/
def mul4 (A B : Mat4) : Mat4 :=
  ⟨A.m00*B.m00 + A.m01*B.m10 + A.m02*B.m20 + A.m03*B.m30,
   A.m00*B.m01 + A.m01*B.m11 + A.m02*B.m21 + A.m03*B.m31,
   A.m00*B.m02 + A.m01*B.m12 + A.m02*B.m22 + A.m03*B.m32,
   A.m00*B.m03 + A.m01*B.m13 + A.m02*B.m23 + A.m03*B.m33,
   A.m10*B.m00 + A.m11*B.m10 + A.m12*B.m20 + A.m13*B.m30,
   A.m10*B.m01 + A.m11*B.m11 + A.m12*B.m21 + A.m13*B.m31,
   A.m10*B.m02 + A.m11*B.m12 + A.m12*B.m22 + A.m13*B.m32,
   A.m10*B.m03 + A.m11*B.m13 + A.m12*B.m23 + A.m13*B.m33,
   A.m20*B.m00 + A.m21*B.m10 + A.m22*B.m20 + A.m23*B.m30,
   A.m20*B.m01 + A.m21*B.m11 + A.m22*B.m21 + A.m23*B.m31,
   A.m20*B.m02 + A.m21*B.m12 + A.m22*B.m22 + A.m23*B.m32,
   A.m20*B.m03 + A.m21*B.m13 + A.m22*B.m23 + A.m23*B.m33,
   A.m30*B.m00 + A.m31*B.m10 + A.m32*B.m20 + A.m33*B.m30,
   A.m30*B.m01 + A.m31*B.m11 + A.m32*B.m21 + A.m33*B.m31,
   A.m30*B.m02 + A.m31*B.m12 + A.m32*B.m22 + A.m33*B.m32,
   A.m30*B.m03 + A.m31*B.m13 + A.m32*B.m23 + A.m33*B.m33⟩

/-- Determinant of a 3x3 matrix given by its nine entries in row order. -/
def det3 (a b c d e f g h i : ℚ) : ℚ :=
  a*(e*i - f*h) - b*(d*i - f*g) + c*(d*h - e*g)

/-- Determinant of a 4x4 matrix, by cofactor expansion along the first row. -/
def det4 (M : Mat4) : ℚ :=
    M.m00 * det3 M.m11 M.m12 M.m13 M.m21 M.m22 M.m23 M.m31 M.m32 M.m33
  - M.m01 * det3 M.m10 M.m12 M.m13 M.m20 M.m22 M.m23 M.m30 M.m32 M.m33
  + M.m02 * det3 M.m10 M.m11 M.m13 M.m20 M.m21 M.m23 M.m30 M.m31 M.m33
  - M.m03 * det3 M.m10 M.m11 M.m12 M.m20 M.m21 M.m22 M.m30 M.m31 M.m32

/-- Adjugate (transposed cofactor matrix) of a 4x4 matrix. -/
def adj4 (M : Mat4) : Mat4 :=
  ⟨  det3 M.m11 M.m12 M.m13 M.m21 M.m22 M.m23 M.m31 M.m32 M.m33,
   - det3 M.m01 M.m02 M.m03 M.m21 M.m22 M.m23 M.m31 M.m32 M.m33,
     det3 M.m01 M.m02 M.m03 M.m11 M.m12 M.m13 M.m31 M.m32 M.m33,
   - det3 M.m01 M.m02 M.m03 M.m11 M.m12 M.m13 M.m21 M.m22 M.m23,
   - det3 M.m10 M.m12 M.m13 M.m20 M.m22 M.m23 M.m30 M.m32 M.m33,
     det3 M.m00 M.m02 M.m03 M.m20 M.m22 M.m23 M.m30 M.m32 M.m33,
   - det3 M.m00 M.m02 M.m03 M.m10 M.m12 M.m13 M.m30 M.m32 M.m33,
     det3 M.m00 M.m02 M.m03 M.m10 M.m12 M.m13 M.m20 M.m22 M.m23,
     det3 M.m10 M.m11 M.m13 M.m20 M.m21 M.m23 M.m30 M.m31 M.m33,
   - det3 M.m00 M.m01 M.m03 M.m20 M.m21 M.m23 M.m30 M.m31 M.m33,
     det3 M.m00 M.m01 M.m03 M.m10 M.m11 M.m13 M.m30 M.m31 M.m33,
   - det3 M.m00 M.m01 M.m03 M.m10 M.m11 M.m13 M.m20 M.m21 M.m23,
   - det3 M.m10 M.m11 M.m12 M.m20 M.m21 M.m22 M.m30 M.m31 M.m32,
     det3 M.m00 M.m01 M.m02 M.m20 M.m21 M.m22 M.m30 M.m31 M.m32,
   - det3 M.m00 M.m01 M.m02 M.m10 M.m11 M.m12 M.m30 M.m31 M.m32,
     det3 M.m00 M.m01 M.m02 M.m10 M.m11 M.m12 M.m20 M.m21 M.m22⟩

/-- Scalar multiple of a 4x4 matrix. -/
def smul4 (q : ℚ) (M : Mat4) : Mat4 :=
  ⟨q*M.m00, q*M.m01, q*M.m02, q*M.m03,
   q*M.m10, q*M.m11, q*M.m12, q*M.m13,
   q*M.m20, q*M.m21, q*M.m22, q*M.m23,
   q*M.m30, q*M.m31, q*M.m32, q*M.m33⟩

/-- Model of MMatrix.inverse: the adjugate scaled by the reciprocal of the
determinant. On a singular matrix the rational reciprocal of zero is zero,
so the result is the zero matrix; the code under verification never guards
against this case. -/
def minverse (M : Mat4) : Mat4 := smul4 (det4 M)⁻¹ (adj4 M)

/-- Product of a row vector (with implicit homogeneous weight 0) and a 4x4
matrix, modelling MVector times MMatrix: the translation row (row 3) of the
matrix does not contribute. -/
def vecMulMat (v : Pt) (m : Mat4) : Pt :=
  ⟨v.x * m.m00 + v.y * m.m10 + v.z * m.m20,
   v.x * m.m01 + v.y * m.m11 + v.z * m.m21,
   v.x * m.m02 + v.y * m.m12 + v.z * m.m22⟩

/-- The per-vertex matrix built by invert (scripts/cvshapeinverter.py lines
92 to 96): an MMatrix default-constructed to the identity, whose rows 0 to 2
have columns 0 to 2 overwritten by the three response vectors dx, dy, dz and
whose row 3 has columns 0 to 2 overwritten by the corrective point c; the
fourth column keeps its identity values. -/
def frameMatrix (dx dy dz c : Pt) : Mat4 :=
  ⟨dx.x, dx.y, dx.z, 0,
   dy.x, dy.y, dy.z, 0,
   dz.x, dz.y, dz.z, 0,
   c.x,  c.y,  c.z,  1⟩

/-!
The Frame Solver: invert in scripts/cvshapeinverter.py.

The scene is reduced to the one piece of mutable state the function touches
algorithmically: the control points of the intermediate (original) mesh.
The base mesh points are the deformation chain applied to the intermediate
mesh points, modelled by the chain function. Host-only steps of invert
(plugin loading, selection handling, undo chunks, duplication and naming of
the output shape, attribute unlocking, node creation and connection) carry
no algorithmic content and are not modelled; the corrective mesh is an
input point list read once at the start.
-/

/-- Scene state touched by the solver: the intermediate (original) mesh
points. -/
structure Scene where
  orig : List Pt
deriving DecidableEq, Repr

/-- What invert persists onto the deformer node: the inversionMatrix array
elements 0 to N-1 in order, and the deformedPoints attribute. -/
structure SolveResult where
  matrices : List Mat4
  deformedPoints : List Pt
deriving DecidableEq, Repr

/-- The probe loop of invert (lines 56 to 59): for i in range point count,
apply the unit offset f to entry i. Entries at or beyond the point count
are left untouched. -/
def probeFrom (f : Pt → Pt) (pc : Nat) : Nat → List Pt → List Pt
  | _, [] => []
  | i, p :: rest => (if i < pc then f p else p) :: probeFrom f pc (i + 1) rest

/-- The invert operation of scripts/cvshapeinverter.py, lines 39 to 107,
restricted to its algorithmic content. Steps in source order: read the base
points (line 40, the chain applied to the initial intermediate mesh), read
the corrective points (line 44, the corrective input), read the original
points (line 50), build the three probe variants (lines 51 to 59), write
each probe to the intermediate mesh and read the responded base points
(lines 60 to 65), restore the original points (line 66), then per vertex
build the frame matrix, invert it and store it (lines 91 to 101), and store
the base points on deformedPoints (lines 103 to 107). Returns the persisted
data and the final scene state. -/
def invert (chain : List Pt → List Pt) (corrective : List Pt) (s0 : Scene) :
    SolveResult × Scene :=
  let basePoints := chain s0.orig
  let pc := basePoints.length
  let origPoints := s0.orig
  let xProbe := probeFrom (fun p => { p with x := p.x + 1 }) pc 0 origPoints
  let yProbe := probeFrom (fun p => { p with y := p.y + 1 }) pc 0 origPoints
  let zProbe := probeFrom (fun p => { p with z := p.z + 1 }) pc 0 origPoints
  let s1 : Scene := { orig := xProbe }
  let xPts := chain s1.orig
  let s2 : Scene := { orig := yProbe }
  let yPts := chain s2.orig
  let s3 : Scene := { orig := zProbe }
  let zPts := chain s3.orig
  let s4 : Scene := { orig := origPoints }
  let mats := (List.range pc).map fun i =>
    minverse (frameMatrix
      (xPts.getD i ptZero - basePoints.getD i ptZero)
      (yPts.getD i ptZero - basePoints.getD i ptZero)
      (zPts.getD i ptZero - basePoints.getD i ptZero)
      (corrective.getD i ptZero))
  ({ matrices := mats, deformedPoints := basePoints }, s4)

/-!
The Delta Evaluator: the deform methods of the two plugin revisions.
-/

/-- Skip predicate of the deform loop: every component of the delta is below
0.001 in absolute value. -/
def smallDelta (d : Pt) : Prop :=
  |d.x| < 1/1000 ∧ |d.y| < 1/1000 ∧ |d.z| < 1/1000

instance (d : Pt) : Decidable (smallDelta d) := by
  unfold smallDelta; infer_instance

/-- Instance state of a cvShapeInverter deformer node: the initialized flag
and the two caches filled on the first initialized evaluation. -/
structure DeformerState where
  initialized : Bool
  matrices : List Mat4
  deformedPoints : List Pt
deriving DecidableEq, Repr

/-- The fresh state built by the node constructor. -/
def initialState : DeformerState :=
  { initialized := false, matrices := [], deformedPoints := [] }

/-- The per-vertex loop shared by both deform revisions (plugin lines 48 to
61, cvShapeInverter.py lines 57 to 70). The first Nat argument is the
iterator index of the head of the position list; every out-of-range array
access raises in the host and is modelled as none. The matrix lookup only
happens on vertices that are not skipped, exactly as in the source. -/
def applyDeltas (mats : List Mat4) (defPts corrective : List Pt) :
    Nat → List Pt → Option (List Pt)
  | _, [] => some []
  | i, p :: rest =>
    match corrective[i]?, defPts[i]? with
    | some c, some b =>
      let delta := c - b
      if smallDelta delta then
        match applyDeltas mats defPts corrective (i + 1) rest with
        | some out => some (p :: out)
        | none => none
      else
        match mats[i]? with
        | some m =>
          match applyDeltas mats defPts corrective (i + 1) rest with
          | some out => some ((p + vecMulMat delta m) :: out)
          | none => none
        | none => none
    | _, _ => none

/-- Inputs read from the data block by the deform method of
plug-ins/cvshapeinverter_plugin.py: the corrective mesh (none when the plug
is not connected and asMesh yields a null object), the physical elements of
the inversionMatrix array attribute, and the deformedPoints attribute. -/
structure EvalData where
  correctiveMesh : Option (List Pt)
  matrixAttr : List Mat4
  deformedPointsAttr : List Pt

/-- The deform method of plug-ins/cvshapeinverter_plugin.py (lines 20 to
61). If the corrective mesh is not connected, return with nothing changed.
Otherwise, if not initialized: when the matrix array has no elements,
return with nothing changed; else append all matrix elements to the
instance matrix list, copy the deformedPoints attribute into the instance
cache, and set the initialized flag. Finally run the per-vertex loop.
Returns the instance state after the call and the output positions (none
when the evaluation aborts on an out-of-range index). -/
def deformP (st : DeformerState) (inp : EvalData) (positions : List Pt) :
    DeformerState × Option (List Pt) :=
  match inp.correctiveMesh with
  | none => (st, some positions)
  | some correctivePoints =>
    if st.initialized then
      (st, applyDeltas st.matrices st.deformedPoints correctivePoints 0 positions)
    else if inp.matrixAttr.length = 0 then
      (st, some positions)
    else
      let st2 : DeformerState :=
        { initialized := true,
          matrices := st.matrices ++ inp.matrixAttr,
          deformedPoints := inp.deformedPointsAttr }
      (st2, applyDeltas st2.matrices st2.deformedPoints correctivePoints 0 positions)

/-- Reading the inversionMatrix array in the deform method of
plug-ins/cvShapeInverter.py lines 40 to 43: for each vertex index below the
input mesh vertex count, jumpToElement fetches the element with that
logical index, and when it does not exist the array data builder creates it
with a default-constructed (identity) matrix. -/
def readMatrixAttr (attr : List Mat4) (n : Nat) : List Mat4 :=
  (List.range n).map fun i => attr.getD i idMat4

/-- Inputs read from the data block by the deform method of
plug-ins/cvShapeInverter.py: the activate flag, the vertex count of the
input mesh (read only during initialization), the logical elements of the
inversionMatrix array attribute, the deformedPoints attribute, and the
corrective mesh points. -/
structure EvalDataA where
  activate : Bool
  numVertices : Nat
  matrixAttr : List Mat4
  deformedPointsAttr : List Pt
  correctivePoints : List Pt

/-- The deform method of plug-ins/cvShapeInverter.py (lines 21 to 70). The
activate flag is checked first: when false the method returns before
touching any other input or the instance state. Otherwise it initializes
the instance caches if needed (matrices read per vertex index with builder
defaults), reads the corrective points, and runs the per-vertex loop. -/
def deformA (st : DeformerState) (inp : EvalDataA) (positions : List Pt) :
    DeformerState × Option (List Pt) :=
  if inp.activate then
    let st2 : DeformerState :=
      if st.initialized then st
      else
        { initialized := true,
          matrices := st.matrices ++ readMatrixAttr inp.matrixAttr inp.numVertices,
          deformedPoints := inp.deformedPointsAttr }
    (st2, applyDeltas st2.matrices st2.deformedPoints inp.correctivePoints 0 positions)
  else
    (st, some positions)

/-- A run of consecutive evaluations of the cvShapeInverter.py revision:
fold the deform method over a list of per-evaluation inputs, keeping the
instance state. -/
def runEvalsA (st : DeformerState) (evals : List (EvalDataA × List Pt)) : DeformerState :=
  evals.foldl (fun s e => (deformA s e.1 e.2).1) st

/-!
Definitions taken from the wording of the specification, for comparison
with the code-side definitions, plus concrete instances used by witnesses
and counterexamples.
-/

/-- Probe variant described by the specification for the X axis: built from
the unperturbed original by adding a unit offset to the X coordinate of
every vertex. -/
def specProbeX (pts : List Pt) : List Pt := pts.map fun p => { p with x := p.x + 1 }

/-- Probe variant described by the specification for the Y axis. -/
def specProbeY (pts : List Pt) : List Pt := pts.map fun p => { p with y := p.y + 1 }

/-- Probe variant described by the specification for the Z axis. -/
def specProbeZ (pts : List Pt) : List Pt := pts.map fun p => { p with z := p.z + 1 }

/-- A trivial deformation chain: the base mesh equals the intermediate
mesh. -/
def idChain : List Pt → List Pt := fun l => l

/-- A degenerate deformation chain that propagates no positional change:
the base mesh point stays at the origin whatever the intermediate mesh
holds. This realizes the degeneracy the specification mentions, a chain
that does not propagate positional change. -/
def stuckChain : List Pt → List Pt := fun _ => [ptZero]

/-- One-vertex scene for the degenerate solve. -/
def degenScene : Scene := { orig := [ptZero] }

/-- Corrective points for the degenerate solve. -/
def degenCorrective : List Pt := [⟨2, 3, 4⟩]

/-- The frame matrix the solver builds at vertex 0 under stuckChain: all
three response rows vanish, so the matrix is singular. -/
def degenFrame : Mat4 := frameMatrix ptZero ptZero ptZero ⟨2, 3, 4⟩

/-!
General lemmas about the embedded operations.
-/

theorem Pt.add_def (a b : Pt) : a + b = ⟨a.x + b.x, a.y + b.y, a.z + b.z⟩ := rfl

theorem Pt.sub_def (a b : Pt) : a - b = ⟨a.x - b.x, a.y - b.y, a.z - b.z⟩ := rfl

theorem Pt.sub_self (a : Pt) : a - a = ptZero := by
  cases a; simp [Pt.sub_def, ptZero]

/-- Certification of the adjugate formulas: a matrix times its adjugate is
the determinant times the identity. -/
theorem mul4_adj4 (M : Mat4) : mul4 M (adj4 M) = smul4 (det4 M) idMat4 := by
  cases M
  simp only [mul4, adj4, smul4, det4, det3, idMat4, Mat4.mk.injEq]
  refine ⟨by ring, by ring, by ring, by ring, by ring, by ring, by ring, by ring,
    by ring, by ring, by ring, by ring, by ring, by ring, by ring, by ring⟩

theorem mul4_smul4_right (q : ℚ) (A B : Mat4) :
    mul4 A (smul4 q B) = smul4 q (mul4 A B) := by
  cases A; cases B
  simp only [mul4, smul4, Mat4.mk.injEq]
  refine ⟨by ring, by ring, by ring, by ring, by ring, by ring, by ring, by ring,
    by ring, by ring, by ring, by ring, by ring, by ring, by ring, by ring⟩

theorem smul4_smul4 (p q : ℚ) (M : Mat4) : smul4 p (smul4 q M) = smul4 (p * q) M := by
  cases M
  simp only [smul4, Mat4.mk.injEq]
  refine ⟨by ring, by ring, by ring, by ring, by ring, by ring, by ring, by ring,
    by ring, by ring, by ring, by ring, by ring, by ring, by ring, by ring⟩

theorem smul4_one (M : Mat4) : smul4 1 M = M := by
  cases M
  simp [smul4]

/-- Certification of minverse: on a matrix with nonzero determinant it is a
right inverse. -/
theorem mul4_minverse (M : Mat4) (h : det4 M ≠ 0) : mul4 M (minverse M) = idMat4 := by
  unfold minverse
  rw [mul4_smul4_right, mul4_adj4, smul4_smul4, inv_mul_cancel₀ h, smul4_one]

theorem smallDelta_zero : smallDelta ptZero := by
  refine ⟨?_, ?_, ?_⟩ <;> norm_num [ptZero]

/-- Pointwise characterization of a successful run of the per-vertex loop:
the output has the same length as the input, and each output entry is
either the untouched input position (skipped vertex) or the input position
plus the transformed delta. -/
theorem applyDeltas_spec (mats : List Mat4) (defPts corrective : List Pt) :
    ∀ (ps : List Pt) (k : Nat) (out : List Pt),
      applyDeltas mats defPts corrective k ps = some out →
      out.length = ps.length ∧
      ∀ j, j < ps.length →
        ∃ c b, corrective[k + j]? = some c ∧ defPts[k + j]? = some b ∧
          ((smallDelta (c - b) ∧ out[j]? = ps[j]?) ∨
           (¬ smallDelta (c - b) ∧ ∃ m, mats[k + j]? = some m ∧
              out[j]? = some (ps.getD j ptZero + vecMulMat (c - b) m))) := by
  intro ps
  induction ps with
  | nil =>
    intro k out h
    simp only [applyDeltas, Option.some.injEq] at h
    subst h
    simp
  | cons p rest ih =>
    intro k out h
    rw [applyDeltas] at h
    cases hc : corrective[k]? with
    | none => rw [hc] at h; cases hb : defPts[k]? <;> rw [hb] at h <;> cases h
    | some c =>
      rw [hc] at h
      cases hb : defPts[k]? with
      | none => rw [hb] at h; cases h
      | some b =>
        rw [hb] at h
        simp only at h
        by_cases hs : smallDelta (c - b)
        · rw [if_pos hs] at h
          cases hrec : applyDeltas mats defPts corrective (k + 1) rest with
          | none => rw [hrec] at h; cases h
          | some out2 =>
            rw [hrec] at h
            simp only [Option.some.injEq] at h
            subst h
            obtain ⟨hlen2, hspec2⟩ := ih (k + 1) out2 hrec
            refine ⟨by simp [hlen2], ?_⟩
            intro j hj
            cases j with
            | zero =>
              refine ⟨c, b, by simpa using hc, by simpa using hb, Or.inl ⟨hs, by simp⟩⟩
            | succ j2 =>
              have hj2 : j2 < rest.length := by simpa using hj
              obtain ⟨c2, b2, hc2, hb2, hcase⟩ := hspec2 j2 hj2
              have harith : k + (j2 + 1) = k + 1 + j2 := by omega
              refine ⟨c2, b2, by rw [harith]; exact hc2, by rw [harith]; exact hb2, ?_⟩
              rcases hcase with ⟨h1, h2⟩ | ⟨h1, m, hm, h2⟩
              · exact Or.inl ⟨h1, by simpa using h2⟩
              · exact Or.inr ⟨h1, m, by rw [harith]; exact hm, by simpa using h2⟩
        · rw [if_neg hs] at h
          cases hm : mats[k]? with
          | none => rw [hm] at h; cases h
          | some m =>
            rw [hm] at h
            cases hrec : applyDeltas mats defPts corrective (k + 1) rest with
            | none => rw [hrec] at h; cases h
            | some out2 =>
              rw [hrec] at h
              simp only [Option.some.injEq] at h
              subst h
              obtain ⟨hlen2, hspec2⟩ := ih (k + 1) out2 hrec
              refine ⟨by simp [hlen2], ?_⟩
              intro j hj
              cases j with
              | zero =>
                refine ⟨c, b, by simpa using hc, by simpa using hb,
                  Or.inr ⟨hs, m, by simpa using hm, by simp⟩⟩
              | succ j2 =>
                have hj2 : j2 < rest.length := by simpa using hj
                obtain ⟨c2, b2, hc2, hb2, hcase⟩ := hspec2 j2 hj2
                have harith : k + (j2 + 1) = k + 1 + j2 := by omega
                refine ⟨c2, b2, by rw [harith]; exact hc2, by rw [harith]; exact hb2, ?_⟩
                rcases hcase with ⟨h1, h2⟩ | ⟨h1, m2, hm2, h2⟩
                · exact Or.inl ⟨h1, by simpa using h2⟩
                · exact Or.inr ⟨h1, m2, by rw [harith]; exact hm2, by simpa using h2⟩

/-- When the corrective points coincide with the stored base points, every
delta vanishes, every vertex is skipped, and the loop returns the input
positions unchanged. -/
theorem applyDeltas_self (mats : List Mat4) (defPts : List Pt) :
    ∀ (ps : List Pt) (k : Nat),
      (∀ j, j < ps.length → k + j < defPts.length) →
      applyDeltas mats defPts defPts k ps = some ps := by
  intro ps
  induction ps with
  | nil => intro k _; simp [applyDeltas]
  | cons p rest ih =>
    intro k h
    have hk : k < defPts.length := by
      have := h 0 (by simp)
      omega
    have hb : defPts[k]? = some defPts[k] := List.getElem?_eq_getElem hk
    have hrec : applyDeltas mats defPts defPts (k + 1) rest = some rest := by
      refine ih (k + 1) ?_
      intro j hj
      have := h (j + 1) (by simpa using Nat.succ_lt_succ hj)
      omega
    rw [applyDeltas, hb]
    simp only [Pt.sub_self, if_pos smallDelta_zero, hrec]

/-- Extra corrective points beyond every index the loop touches are never
read: the loop gives the same result with them appended. -/
theorem applyDeltas_append (mats : List Mat4) (defPts corr extra : List Pt) :
    ∀ (ps : List Pt) (k : Nat), k + ps.length ≤ corr.length →
      applyDeltas mats defPts (corr ++ extra) k ps = applyDeltas mats defPts corr k ps := by
  intro ps
  induction ps with
  | nil => intro k _; simp [applyDeltas]
  | cons p rest ih =>
    intro k h
    have hk : k < corr.length := by simp at h; omega
    have hget : (corr ++ extra)[k]? = corr[k]? := List.getElem?_append_left hk
    have hrec := ih (k + 1) (by simp at h ⊢; omega)
    rw [applyDeltas, applyDeltas, hget, hrec]

/-- When the corrective point list is too short for the vertices the loop
visits, the loop aborts: the first vertex whose index reaches the end of
the corrective list raises, and the evaluation yields none. -/
theorem applyDeltas_short (mats : List Mat4) (defPts corr : List Pt) :
    ∀ (ps : List Pt) (k : Nat), k ≤ corr.length → corr.length < k + ps.length →
      applyDeltas mats defPts corr k ps = none := by
  intro ps
  induction ps with
  | nil => intro k h1 h2; simp at h2; omega
  | cons p rest ih =>
    intro k h1 h2
    rw [applyDeltas]
    by_cases hk : k < corr.length
    · have hrec : applyDeltas mats defPts corr (k + 1) rest = none :=
        ih (k + 1) (by omega) (by simp at h2; omega)
      cases hc : corr[k]? with
      | none => rfl
      | some c =>
        cases hb : defPts[k]? with
        | none => rfl
        | some b =>
          simp only
          by_cases hs : smallDelta (c - b)
          · rw [if_pos hs, hrec]
          · rw [if_neg hs]
            cases hm : mats[k]? with
            | none => rfl
            | some m => rw [hrec]
    · have hc : corr[k]? = none := List.getElem?_eq_none (by omega)
      rw [hc]

/-- When the probe loop bound covers the whole list, the loop is a plain
map of the unit offset over every vertex. -/
theorem probeFrom_map (f : Pt → Pt) (pc : Nat) :
    ∀ (l : List Pt) (k : Nat), k + l.length ≤ pc →
      probeFrom f pc k l = l.map f := by
  intro l
  induction l with
  | nil => intro k _; simp [probeFrom]
  | cons p rest ih =>
    intro k h
    have hk : k < pc := by simp at h; omega
    have hrec := ih (k + 1) (by simp at h ⊢; omega)
    simp [probeFrom, if_pos hk, hrec]

/-!
Claim theorems.
-/

/-- C10: after a successful run of the authoring operation invert, the
intermediate (original, pre-deformation) mesh vertex positions are restored
to exactly the values they had before the solve: the three probe mutations
written to it while sampling the deformation chain are undone by writing
back the saved original points before the operation returns. -/
theorem invert_restores_original_mesh (chain : List Pt → List Pt)
    (corrective : List Pt) (s0 : Scene) :
    ((invert chain corrective s0).2).orig = s0.orig := rfl

/-- C1: for every vertex i in [0, N), invert builds a 4x4 matrix whose rows
0 to 2 are the chain responses to unit probe displacements of the original
mesh along X, Y and Z (each probe constructed independently from the
unperturbed original by adding 1.0 to that axis of every vertex) minus
basePoints[i], and whose row 3 is correctivePoints[i]; it stores the
inverse of that matrix as entry i of the inversionMatrix table and
snapshots basePoints as the deformedPoints attribute. -/
theorem invert_builds_inverse_frame_table (chain : List Pt → List Pt)
    (corrective : List Pt) (s0 : Scene)
    (hlen : s0.orig.length = (chain s0.orig).length)
    (i : Nat) (hi : i < (chain s0.orig).length) :
    (invert chain corrective s0).1.matrices[i]? =
      some (minverse (frameMatrix
        ((chain (specProbeX s0.orig)).getD i ptZero - (chain s0.orig).getD i ptZero)
        ((chain (specProbeY s0.orig)).getD i ptZero - (chain s0.orig).getD i ptZero)
        ((chain (specProbeZ s0.orig)).getD i ptZero - (chain s0.orig).getD i ptZero)
        (corrective.getD i ptZero)))
    ∧ (invert chain corrective s0).1.deformedPoints = chain s0.orig := by
  have hb : 0 + s0.orig.length ≤ (chain s0.orig).length := by omega
  constructor
  · simp only [invert]
    rw [probeFrom_map _ _ s0.orig 0 hb, probeFrom_map _ _ s0.orig 0 hb,
      probeFrom_map _ _ s0.orig 0 hb]
    rw [List.getElem?_map, List.getElem?_range hi]
    rfl
  · simp only [invert]

/-- Witness for C1 at a concrete input: a one-vertex scene with the
identity chain. -/
theorem invert_builds_inverse_frame_table_witness :
    ((Scene.mk [ptZero]).orig.length = (idChain (Scene.mk [ptZero]).orig).length) ∧
    (0 < (idChain (Scene.mk [ptZero]).orig).length) ∧
    ((invert idChain [⟨1, 2, 3⟩] (Scene.mk [ptZero])).1.matrices[0]? =
      some (minverse (frameMatrix
        ((idChain (specProbeX (Scene.mk [ptZero]).orig)).getD 0 ptZero
          - (idChain (Scene.mk [ptZero]).orig).getD 0 ptZero)
        ((idChain (specProbeY (Scene.mk [ptZero]).orig)).getD 0 ptZero
          - (idChain (Scene.mk [ptZero]).orig).getD 0 ptZero)
        ((idChain (specProbeZ (Scene.mk [ptZero]).orig)).getD 0 ptZero
          - (idChain (Scene.mk [ptZero]).orig).getD 0 ptZero)
        (([⟨1, 2, 3⟩] : List Pt).getD 0 ptZero)))
    ∧ (invert idChain [⟨1, 2, 3⟩] (Scene.mk [ptZero])).1.deformedPoints
        = idChain (Scene.mk [ptZero]).orig) :=
  ⟨rfl, by decide,
    invert_builds_inverse_frame_table idChain [⟨1, 2, 3⟩] (Scene.mk [ptZero]) rfl 0 (by decide)⟩

/-- Counterexample for C5: under a degenerate chain that propagates no
positional change, the frame at vertex 0 is singular (zero determinant).
The solver does not detect this: it completes, and the stored entry is the
unchecked minverse of the singular frame, which is neither an identity
fallback nor a true inverse, and no abort or per-vertex flagging occurs
(the table is fully populated). -/
theorem invert_singular_frame_counterexample :
    det4 degenFrame = 0 ∧
    (invert stuckChain degenCorrective degenScene).1.matrices = [minverse degenFrame] ∧
    minverse degenFrame ≠ idMat4 ∧
    mul4 degenFrame (minverse degenFrame) ≠ idMat4 := by
  have hmv : minverse degenFrame = zeroMat4 := by
    norm_num [minverse, adj4, det4, det3, smul4, degenFrame, frameMatrix, ptZero, zeroMat4]
  refine ⟨?_, ?_, ?_, ?_⟩
  · norm_num [det4, det3, degenFrame, frameMatrix, ptZero]
  · have hr : List.range 1 = [0] := by decide
    simp [invert, stuckChain, degenScene, degenCorrective, degenFrame, probeFrom,
      hr, Pt.sub_self]
  · rw [hmv]
    norm_num [zeroMat4, idMat4, Mat4.mk.injEq]
  · rw [hmv]
    norm_num [mul4, zeroMat4, idMat4, Mat4.mk.injEq]

/-- C5 amended: the solver performs no singularity detection at all. For
every vertex, including vertices whose frame matrix is singular, it
unconditionally stores minverse of the frame matrix (which for a singular
frame is not a true inverse) and the solve always completes over all N
vertices with a fully populated table: no identity fallback, no flagging,
no abort. -/
theorem invert_no_singularity_check (chain : List Pt → List Pt)
    (corrective : List Pt) (s0 : Scene) (i : Nat)
    (hi : i < (chain s0.orig).length) :
    (invert chain corrective s0).1.matrices.length = (chain s0.orig).length ∧
    (invert chain corrective s0).1.matrices[i]? =
      some (minverse (frameMatrix
        ((chain (probeFrom (fun p => { p with x := p.x + 1 })
            (chain s0.orig).length 0 s0.orig)).getD i ptZero
          - (chain s0.orig).getD i ptZero)
        ((chain (probeFrom (fun p => { p with y := p.y + 1 })
            (chain s0.orig).length 0 s0.orig)).getD i ptZero
          - (chain s0.orig).getD i ptZero)
        ((chain (probeFrom (fun p => { p with z := p.z + 1 })
            (chain s0.orig).length 0 s0.orig)).getD i ptZero
          - (chain s0.orig).getD i ptZero)
        (corrective.getD i ptZero))) := by
  constructor
  · simp [invert]
  · simp only [invert]
    rw [List.getElem?_map, List.getElem?_range hi]
    rfl

/-- Witness for the amended C5 at the degenerate concrete input. -/
theorem invert_no_singularity_check_witness :
    (0 < (stuckChain degenScene.orig).length) ∧
    ((invert stuckChain degenCorrective degenScene).1.matrices.length
        = (stuckChain degenScene.orig).length ∧
     (invert stuckChain degenCorrective degenScene).1.matrices[0]? =
      some (minverse (frameMatrix
        ((stuckChain (probeFrom (fun p => { p with x := p.x + 1 })
            (stuckChain degenScene.orig).length 0 degenScene.orig)).getD 0 ptZero
          - (stuckChain degenScene.orig).getD 0 ptZero)
        ((stuckChain (probeFrom (fun p => { p with y := p.y + 1 })
            (stuckChain degenScene.orig).length 0 degenScene.orig)).getD 0 ptZero
          - (stuckChain degenScene.orig).getD 0 ptZero)
        ((stuckChain (probeFrom (fun p => { p with z := p.z + 1 })
            (stuckChain degenScene.orig).length 0 degenScene.orig)).getD 0 ptZero
          - (stuckChain degenScene.orig).getD 0 ptZero)
        (degenCorrective.getD 0 ptZero)))) :=
  ⟨by decide,
    invert_no_singularity_check stuckChain degenCorrective degenScene 0 (by decide)⟩

/-- C7: an evaluation of the cvshapeinverter_plugin.py deform while the
corrective mesh input is disconnected (null), or while the instance is
uninitialized and the stored inversion-matrix array is empty, is a benign
no-op: it returns without modifying any vertex position, without raising an
error, and without setting the initialized flag, so a later evaluation with
the data wired can still initialize normally. -/
theorem deformP_unwired_noop (st : DeformerState) (inp : EvalData) (ps : List Pt)
    (h : inp.correctiveMesh = none ∨ (st.initialized = false ∧ inp.matrixAttr = [])) :
    deformP st inp ps = (st, some ps) := by
  rcases h with h | ⟨h1, h2⟩
  · simp [deformP, h]
  · cases hc : inp.correctiveMesh with
    | none => simp [deformP, hc]
    | some corr => simp [deformP, hc, h1, h2]

/-- Witness for C7: both no-op situations at concrete inputs. -/
theorem deformP_unwired_noop_witness :
    (((⟨none, [], []⟩ : EvalData).correctiveMesh = none ∨
       (initialState.initialized = false ∧ (⟨none, [], []⟩ : EvalData).matrixAttr = [])) ∧
      deformP initialState ⟨none, [], []⟩ [ptZero] = (initialState, some [ptZero])) ∧
    (((⟨some [ptZero], [], [ptZero]⟩ : EvalData).correctiveMesh = none ∨
       (initialState.initialized = false ∧
        (⟨some [ptZero], [], [ptZero]⟩ : EvalData).matrixAttr = [])) ∧
      deformP initialState ⟨some [ptZero], [], [ptZero]⟩ [ptZero]
        = (initialState, some [ptZero])) :=
  ⟨⟨Or.inl rfl, deformP_unwired_noop initialState ⟨none, [], []⟩ [ptZero] (Or.inl rfl)⟩,
   ⟨Or.inr ⟨rfl, rfl⟩,
    deformP_unwired_noop initialState ⟨some [ptZero], [], [ptZero]⟩ [ptZero]
      (Or.inr ⟨rfl, rfl⟩)⟩⟩

/-- C8: every evaluation of the cvShapeInverter.py deform with the activate
flag false produces no effect: every vertex position passes through
unmodified, and the check happens before any state transition, so any
number of consecutive disabled evaluations leaves the instance state
(including an uninitialized one) exactly as it was, and the matrix and
snapshot storage are never consulted (the result does not depend on them). -/
theorem deformA_disabled_passthrough (st : DeformerState)
    (evals : List (EvalDataA × List Pt))
    (h : ∀ e ∈ evals, e.1.activate = false) :
    runEvalsA st evals = st ∧
    (∀ e ∈ evals, ∀ s : DeformerState, deformA s e.1 e.2 = (s, some e.2)) := by
  have hstep : ∀ (s : DeformerState) (inp : EvalDataA) (ps : List Pt),
      inp.activate = false → deformA s inp ps = (s, some ps) := by
    intro s inp ps ha
    simp [deformA, ha]
  have hfold : ∀ (evals2 : List (EvalDataA × List Pt)) (s : DeformerState),
      (∀ e ∈ evals2, e.1.activate = false) → runEvalsA s evals2 = s := by
    intro evals2
    induction evals2 with
    | nil => intro s _; rfl
    | cons e rest ih =>
      intro s h2
      have he := h2 e (List.mem_cons_self e rest)
      have h1 : (deformA s e.1 e.2).1 = s := by rw [hstep s e.1 e.2 he]
      show runEvalsA ((deformA s e.1 e.2).1) rest = s
      rw [h1]
      exact ih s (fun e2 he2 => h2 e2 (List.mem_cons_of_mem e he2))
  exact ⟨hfold evals st h, fun e he s => hstep s e.1 e.2 (h e he)⟩

/-- Witness for C8: two consecutive disabled evaluations on a fresh
instance. -/
theorem deformA_disabled_passthrough_witness :
    (∀ e ∈ ([(⟨false, 1, [idMat4], [ptZero], [ptZero]⟩, [ptZero]),
             (⟨false, 0, [], [], []⟩, [])] : List (EvalDataA × List Pt)),
      e.1.activate = false) ∧
    (runEvalsA initialState
        [(⟨false, 1, [idMat4], [ptZero], [ptZero]⟩, [ptZero]),
         (⟨false, 0, [], [], []⟩, [])] = initialState ∧
     (∀ e ∈ ([(⟨false, 1, [idMat4], [ptZero], [ptZero]⟩, [ptZero]),
              (⟨false, 0, [], [], []⟩, [])] : List (EvalDataA × List Pt)),
       ∀ s : DeformerState, deformA s e.1 e.2 = (s, some e.2))) :=
  ⟨by simp,
   deformA_disabled_passthrough initialState
     [(⟨false, 1, [idMat4], [ptZero], [ptZero]⟩, [ptZero]),
      (⟨false, 0, [], [], []⟩, [])] (by simp)⟩

/-- C9: once the instance is initialized (matrices and base-point snapshot
cached), every subsequent evaluation of either deform revision leaves the
instance state exactly as it is (the transition is one-way and the caches
are never mutated) and its result does not depend on the upstream
attribute storage (matrix array, deformedPoints attribute, vertex count):
only the corrective input, the activate flag and the positions matter. -/
theorem deform_ready_is_pure (st : DeformerState) (hinit : st.initialized = true)
    (ps : List Pt) (inp1 inp2 : EvalData)
    (hc : inp1.correctiveMesh = inp2.correctiveMesh)
    (inpA1 inpA2 : EvalDataA)
    (hact : inpA1.activate = inpA2.activate)
    (hcp : inpA1.correctivePoints = inpA2.correctivePoints) :
    (deformP st inp1 ps).1 = st ∧
    deformP st inp1 ps = deformP st inp2 ps ∧
    (deformA st inpA1 ps).1 = st ∧
    deformA st inpA1 ps = deformA st inpA2 ps := by
  have eP : ∀ inp : EvalData, deformP st inp ps =
      (match inp.correctiveMesh with
       | none => (st, some ps)
       | some corr => (st, applyDeltas st.matrices st.deformedPoints corr 0 ps)) := by
    intro inp
    cases hc1 : inp.correctiveMesh with
    | none => simp [deformP, hc1]
    | some corr => simp [deformP, hc1, hinit]
  have eA : ∀ inp : EvalDataA, deformA st inp ps =
      (if inp.activate then
        (st, applyDeltas st.matrices st.deformedPoints inp.correctivePoints 0 ps)
      else (st, some ps)) := by
    intro inp
    by_cases ha : inp.activate <;> simp [deformA, ha, hinit]
  refine ⟨?_, ?_, ?_, ?_⟩
  · rw [eP inp1]
    cases inp1.correctiveMesh <;> rfl
  · rw [eP inp1, eP inp2, hc]
  · rw [eA inpA1]
    by_cases ha : inpA1.activate <;> simp [ha]
  · rw [eA inpA1, eA inpA2, hact, hcp]

/-- Witness for C9 at concrete inputs: an initialized instance, two data
blocks agreeing on the corrective input but with different upstream
attribute storage. -/
theorem deform_ready_is_pure_witness :
    ((⟨true, [idMat4], [ptZero]⟩ : DeformerState).initialized = true) ∧
    ((⟨some [ptZero], [], []⟩ : EvalData).correctiveMesh
      = (⟨some [ptZero], [idMat4, idMat4], [ptZero]⟩ : EvalData).correctiveMesh) ∧
    ((⟨true, 5, [], [], [ptZero]⟩ : EvalDataA).activate
      = (⟨true, 0, [idMat4], [ptZero], [ptZero]⟩ : EvalDataA).activate) ∧
    ((⟨true, 5, [], [], [ptZero]⟩ : EvalDataA).correctivePoints
      = (⟨true, 0, [idMat4], [ptZero], [ptZero]⟩ : EvalDataA).correctivePoints) ∧
    ((deformP ⟨true, [idMat4], [ptZero]⟩ ⟨some [ptZero], [], []⟩ [ptZero]).1
        = ⟨true, [idMat4], [ptZero]⟩ ∧
     deformP ⟨true, [idMat4], [ptZero]⟩ ⟨some [ptZero], [], []⟩ [ptZero]
        = deformP ⟨true, [idMat4], [ptZero]⟩ ⟨some [ptZero], [idMat4, idMat4], [ptZero]⟩ [ptZero] ∧
     (deformA ⟨true, [idMat4], [ptZero]⟩ ⟨true, 5, [], [], [ptZero]⟩ [ptZero]).1
        = ⟨true, [idMat4], [ptZero]⟩ ∧
     deformA ⟨true, [idMat4], [ptZero]⟩ ⟨true, 5, [], [], [ptZero]⟩ [ptZero]
        = deformA ⟨true, [idMat4], [ptZero]⟩ ⟨true, 0, [idMat4], [ptZero], [ptZero]⟩ [ptZero]) :=
  ⟨rfl, rfl, rfl, rfl,
   deform_ready_is_pure ⟨true, [idMat4], [ptZero]⟩ rfl [ptZero]
     ⟨some [ptZero], [], []⟩ ⟨some [ptZero], [idMat4, idMat4], [ptZero]⟩ rfl
     ⟨true, 5, [], [], [ptZero]⟩ ⟨true, 0, [idMat4], [ptZero], [ptZero]⟩ rfl rfl⟩

/-- C4: round-trip identity. For any evaluator state, when the corrective
mesh points equal the base-point snapshot exactly (the cached one when
initialized, the one about to be cached otherwise), one evaluation of the
cvshapeinverter_plugin.py deform leaves every vertex position of the
deformed mesh unchanged. -/
theorem deformP_round_trip_identity (st : DeformerState) (inp : EvalData) (ps : List Pt)
    (hc : inp.correctiveMesh =
      some (if st.initialized then st.deformedPoints else inp.deformedPointsAttr))
    (hlen : ps.length ≤
      (if st.initialized then st.deformedPoints else inp.deformedPointsAttr).length) :
    (deformP st inp ps).2 = some ps := by
  by_cases hinit : st.initialized = true
  · simp only [hinit, if_true] at hc hlen
    simp only [deformP, hc, hinit, if_true]
    exact applyDeltas_self st.matrices st.deformedPoints ps 0 (fun j hj => by omega)
  · have hinit2 : st.initialized = false := by
      cases h2 : st.initialized
      · rfl
      · exact absurd h2 hinit
    simp only [hinit2, Bool.false_eq_true, if_false] at hc hlen
    by_cases hm : inp.matrixAttr.length = 0
    · simp [deformP, hc, hinit2, hm]
    · simp only [deformP, hc, hinit2, Bool.false_eq_true, if_false, if_neg hm]
      exact applyDeltas_self _ inp.deformedPointsAttr ps 0 (fun j hj => by omega)

/-- Witness for C4: an initialized instance whose corrective points equal
the snapshot. -/
theorem deformP_round_trip_identity_witness :
    ((⟨some [⟨1, 1, 1⟩], [], []⟩ : EvalData).correctiveMesh =
      some (if (⟨true, [zeroMat4], [⟨1, 1, 1⟩]⟩ : DeformerState).initialized
        then (⟨true, [zeroMat4], [⟨1, 1, 1⟩]⟩ : DeformerState).deformedPoints
        else (⟨some [⟨1, 1, 1⟩], [], []⟩ : EvalData).deformedPointsAttr)) ∧
    (([ptZero] : List Pt).length ≤
      (if (⟨true, [zeroMat4], [⟨1, 1, 1⟩]⟩ : DeformerState).initialized
        then (⟨true, [zeroMat4], [⟨1, 1, 1⟩]⟩ : DeformerState).deformedPoints
        else (⟨some [⟨1, 1, 1⟩], [], []⟩ : EvalData).deformedPointsAttr).length) ∧
    (deformP ⟨true, [zeroMat4], [⟨1, 1, 1⟩]⟩ ⟨some [⟨1, 1, 1⟩], [], []⟩ [ptZero]).2
      = some [ptZero] :=
  ⟨rfl, by decide,
   deformP_round_trip_identity ⟨true, [zeroMat4], [⟨1, 1, 1⟩]⟩
     ⟨some [⟨1, 1, 1⟩], [], []⟩ [ptZero] rfl (by decide)⟩

/-- C3: the per-vertex rule of the delta evaluator. On a successful
evaluation of an initialized instance, a vertex whose delta (corrective
point minus snapshot point) has every component below 0.001 in absolute
value keeps its output position exactly equal to its input position,
whatever the cached matrix table holds; a vertex whose delta has some
component of absolute value at least 0.001 receives its input position plus
the delta (as a vector) multiplied by the cached matrix for that vertex. -/
theorem deformP_per_vertex_rule (st : DeformerState) (hinit : st.initialized = true)
    (inp : EvalData) (corr : List Pt) (hc : inp.correctiveMesh = some corr)
    (ps out : List Pt) (hrun : (deformP st inp ps).2 = some out)
    (i : Nat) (hi : i < ps.length) (_hic : i < corr.length)
    (_hib : i < st.deformedPoints.length) :
    (smallDelta (corr.getD i ptZero - st.deformedPoints.getD i ptZero) →
      out[i]? = ps[i]?) ∧
    (¬ smallDelta (corr.getD i ptZero - st.deformedPoints.getD i ptZero) →
      out[i]? = some (ps.getD i ptZero +
        vecMulMat (corr.getD i ptZero - st.deformedPoints.getD i ptZero)
          (st.matrices.getD i idMat4))) := by
  simp only [deformP, hc, hinit, if_true] at hrun
  obtain ⟨hlen, hspec⟩ := applyDeltas_spec st.matrices st.deformedPoints corr ps 0 out hrun
  obtain ⟨c, b, hc2, hb2, hcase⟩ := hspec i hi
  have hc3 : corr[i]? = some c := by simpa using hc2
  have hb3 : st.deformedPoints[i]? = some b := by simpa using hb2
  have hcg : corr.getD i ptZero = c := by
    rw [List.getD_eq_getElem?_getD, hc3]
    rfl
  have hbg : st.deformedPoints.getD i ptZero = b := by
    rw [List.getD_eq_getElem?_getD, hb3]
    rfl
  rw [hcg, hbg]
  rcases hcase with ⟨hs, hout⟩ | ⟨hs, m, hm, hout⟩
  · exact ⟨fun _ => hout, fun hns => absurd hs hns⟩
  · refine ⟨fun hsm => absurd hsm hs, fun _ => ?_⟩
    have hm3 : st.matrices[i]? = some m := by simpa using hm
    have hmg : st.matrices.getD i idMat4 = m := by
      rw [List.getD_eq_getElem?_getD, hm3]
      rfl
    rw [hmg]
    simpa using hout

/-- Witness for C3: a one-vertex evaluation whose delta is above the
threshold; the theorem is applied at index 0 of that run. -/
theorem deformP_per_vertex_rule_witness :
    ((⟨true, [idMat4], [ptZero]⟩ : DeformerState).initialized = true) ∧
    ((⟨some [⟨1, 0, 0⟩], [], []⟩ : EvalData).correctiveMesh = some [⟨1, 0, 0⟩]) ∧
    ((deformP ⟨true, [idMat4], [ptZero]⟩ ⟨some [⟨1, 0, 0⟩], [], []⟩ [ptZero]).2
      = some [⟨1, 0, 0⟩]) ∧
    (0 < ([ptZero] : List Pt).length) ∧
    (0 < ([⟨1, 0, 0⟩] : List Pt).length) ∧
    (0 < ((⟨true, [idMat4], [ptZero]⟩ : DeformerState).deformedPoints).length) ∧
    ((smallDelta (([⟨1, 0, 0⟩] : List Pt).getD 0 ptZero
        - (⟨true, [idMat4], [ptZero]⟩ : DeformerState).deformedPoints.getD 0 ptZero) →
      ([⟨1, 0, 0⟩] : List Pt)[0]? = ([ptZero] : List Pt)[0]?) ∧
     (¬ smallDelta (([⟨1, 0, 0⟩] : List Pt).getD 0 ptZero
        - (⟨true, [idMat4], [ptZero]⟩ : DeformerState).deformedPoints.getD 0 ptZero) →
      ([⟨1, 0, 0⟩] : List Pt)[0]? = some (([ptZero] : List Pt).getD 0 ptZero +
        vecMulMat (([⟨1, 0, 0⟩] : List Pt).getD 0 ptZero
          - (⟨true, [idMat4], [ptZero]⟩ : DeformerState).deformedPoints.getD 0 ptZero)
          ((⟨true, [idMat4], [ptZero]⟩ : DeformerState).matrices.getD 0 idMat4)))) := by
  have hrun : (deformP ⟨true, [idMat4], [ptZero]⟩ ⟨some [⟨1, 0, 0⟩], [], []⟩ [ptZero]).2
      = some [⟨1, 0, 0⟩] := by
    norm_num [deformP, applyDeltas, smallDelta, Pt.sub_def, Pt.add_def, vecMulMat,
      idMat4, ptZero, Pt.mk.injEq]
  exact ⟨rfl, rfl, hrun, by decide, by decide, by decide,
    deformP_per_vertex_rule ⟨true, [idMat4], [ptZero]⟩ rfl
      ⟨some [⟨1, 0, 0⟩], [], []⟩ [⟨1, 0, 0⟩] rfl [ptZero] [⟨1, 0, 0⟩] hrun
      0 (by decide) (by decide) (by decide)⟩

/-- C2: the concrete scenario. With four vertices, snapshot
[(0,0,0),(1,0,0),(0,1,0),(0,0,1)], identity matrices at every vertex and
corrective points [(0,0,0),(1.2,0,0),(0,1,0),(0,0,1)], one evaluation of
the delta evaluator moves only vertex 1, adding (0.2,0,0) to its current
position, and leaves the positions of vertices 0, 2 and 3 unchanged,
whatever the current positions are. -/
theorem deformP_concrete_scenario (p0 p1 p2 p3 : Pt) :
    deformP ⟨true, [idMat4, idMat4, idMat4, idMat4],
        [⟨0, 0, 0⟩, ⟨1, 0, 0⟩, ⟨0, 1, 0⟩, ⟨0, 0, 1⟩]⟩
      ⟨some [⟨0, 0, 0⟩, ⟨1.2, 0, 0⟩, ⟨0, 1, 0⟩, ⟨0, 0, 1⟩], [], []⟩
      [p0, p1, p2, p3]
    = (⟨true, [idMat4, idMat4, idMat4, idMat4],
        [⟨0, 0, 0⟩, ⟨1, 0, 0⟩, ⟨0, 1, 0⟩, ⟨0, 0, 1⟩]⟩,
       some [p0, p1 + ⟨0.2, 0, 0⟩, p2, p3]) := by
  norm_num [deformP, applyDeltas, smallDelta, Pt.sub_def, Pt.add_def, vecMulMat,
    idMat4, Pt.mk.injEq, Prod.ext_iff]
  rw [show |(1 : ℚ)/5| = 1/5 from abs_of_nonneg (by norm_num)]
  norm_num

/-- Counterexample for C6: an initialized instance with N = 1 (one cached
matrix, one snapshot point, one mesh vertex) evaluated with a corrective
array of length 2. No precondition error is raised: the evaluation
completes and produces output geometry, silently ignoring the extra
corrective point. -/
theorem deformP_length_mismatch_counterexample :
    (([ptZero, ⟨5, 5, 5⟩] : List Pt).length
        ≠ (⟨true, [idMat4], [ptZero]⟩ : DeformerState).matrices.length) ∧
    (([ptZero, ⟨5, 5, 5⟩] : List Pt).length
        ≠ (⟨true, [idMat4], [ptZero]⟩ : DeformerState).deformedPoints.length) ∧
    deformP ⟨true, [idMat4], [ptZero]⟩ ⟨some [ptZero, ⟨5, 5, 5⟩], [], []⟩ [ptZero]
      = (⟨true, [idMat4], [ptZero]⟩, some [ptZero]) := by
  refine ⟨by decide, by decide, ?_⟩
  norm_num [deformP, applyDeltas, smallDelta, Pt.sub_def, ptZero]

/-- C6 amended: the evaluator performs no explicit length validation. With
a CorrectivePoints array longer than every index the loop visits, the
evaluation succeeds and silently ignores the extra entries (the result is
identical to evaluating with the truncated array); with a CorrectivePoints
array shorter than the evaluated vertex count, the evaluation aborts with a
host index error when the loop reaches the first out-of-range index, not
with an upfront precondition check. -/
theorem deformP_no_length_validation (st : DeformerState) (hinit : st.initialized = true)
    (corr extra ps : List Pt) (a1 a2 : List Mat4) (d1 d2 : List Pt) :
    (ps.length ≤ corr.length →
      deformP st ⟨some (corr ++ extra), a1, d1⟩ ps = deformP st ⟨some corr, a2, d2⟩ ps) ∧
    (corr.length < ps.length →
      (deformP st ⟨some corr, a1, d1⟩ ps).2 = none) := by
  constructor
  · intro hlen
    simp only [deformP, hinit, if_true]
    rw [applyDeltas_append st.matrices st.deformedPoints corr extra ps 0 (by omega)]
  · intro hlen
    simp only [deformP, hinit, if_true]
    rw [applyDeltas_short st.matrices st.deformedPoints corr ps 0 (by omega) (by omega)]

/-- Witness for the amended C6: a concrete initialized instance; the first
conjunct is exercised with a longer corrective array, the second with an
empty one. -/
theorem deformP_no_length_validation_witness :
    ((⟨true, [idMat4], [ptZero]⟩ : DeformerState).initialized = true) ∧
    ((([ptZero] : List Pt).length ≤ ([ptZero] : List Pt).length →
      deformP ⟨true, [idMat4], [ptZero]⟩ ⟨some ([ptZero] ++ [⟨5, 5, 5⟩]), [], []⟩ [ptZero]
        = deformP ⟨true, [idMat4], [ptZero]⟩ ⟨some [ptZero], [idMat4], [ptZero]⟩ [ptZero]) ∧
     (([] : List Pt).length < ([ptZero] : List Pt).length →
      (deformP ⟨true, [idMat4], [ptZero]⟩ ⟨some [], [], []⟩ [ptZero]).2 = none)) :=
  ⟨rfl, by
    have h := deformP_no_length_validation ⟨true, [idMat4], [ptZero]⟩ rfl
      [ptZero] [⟨5, 5, 5⟩] [ptZero] [] [idMat4] [] [ptZero]
    have h2 := deformP_no_length_validation ⟨true, [idMat4], [ptZero]⟩ rfl
      [] [⟨5, 5, 5⟩] [ptZero] [] [] [] []
    exact ⟨h.1, h2.2⟩⟩
